import Mathlib

/-!
Verification of the poll lifecycle engine of a Discord availability-poll bot.

The development shallowly embeds the stateful Python code:
* `src/database/database_manager.py` — the vote store (`save_vote`,
  `remove_vote`, `get_poll_votes`, `save_server_config`, `create_poll`);
  SQLAlchemy tables become Lean lists of rows, `query(...).first()` becomes
  `List.find?`, in-place row mutation becomes functional replacement of the
  first matching row.
* `src/bot/config.py` — the JSON-file config manager (`get_default_config`,
  `initialize_guild`, `get_guild_config`).
* `src/bot/scheduler.py` — the APScheduler job table (`schedule_guild_poll`,
  one cron job per guild keyed by the job id string), and the publish paths
  (`post_daily_poll`, `post_test_poll`) with their exception handling.
* `src/main.py` — the reaction event handlers (`on_reaction_add`,
  `on_reaction_remove`) and the reconciliation loop `update_poll_results`.

Timestamps are modelled as `Nat` ticks; Python exceptions become explicit
`Except`/`Option` error channels; the Discord collaborator's live reaction
state becomes an explicit list of (user, emoji) pairs.
-/

namespace PollBot

/-- A row of the `polls` table (src/database/models.py, class `Poll`). -/
structure PollRow where
  id : Nat
  server_config_id : Nat
  guild_id : String
  channel_id : String
  message_id : String
  poll_date : String
  is_test : Bool
  created_at : Nat
deriving Repr, DecidableEq

/-- A row of the `votes` table (src/database/models.py, class `Vote`). -/
structure VoteRow where
  poll_id : Nat
  user_id : String
  username : String
  display_name : String
  emoji : String
  updated_at : Nat
deriving Repr, DecidableEq

/-- A row of the `server_configs` table (src/database/models.py,
class `ServerConfig`). -/
structure ServerRow where
  id : Nat
  guild_id : String
  enabled : Bool
  channel_id : Option String
  poll_hour : Nat
  poll_minute : Nat
  timezone : String
  updated_at : Nat
deriving Repr, DecidableEq

/-- A row of the `poll_options` table (src/database/models.py,
class `PollOption`). -/
structure OptionRow where
  server_config_id : Nat
  emoji : String
  text : String
  order_index : Nat
deriving Repr, DecidableEq

/-- The relational store: the four tables, each as a list of rows in
insertion order. -/
structure DB where
  servers : List ServerRow
  options : List OptionRow
  polls : List PollRow
  votes : List VoteRow
deriving Repr, DecidableEq

/-- `session.query(Poll).filter_by(message_id=...).first()`. -/
def findPoll (mid : String) (db : DB) : Option PollRow :=
  db.polls.find? (fun p => p.message_id = mid)

/-- `session.query(Vote).filter_by(poll_id=..., user_id=...).first()`. -/
def findVote (pid : Nat) (uid : String) (votes : List VoteRow) : Option VoteRow :=
  votes.find? (fun v => v.poll_id = pid ∧ v.user_id = uid)

/-- Mutating the ORM row returned by `.first()` in place: replace the first
row matching the (poll, user) key, updating exactly the fields `save_vote`
assigns (`emoji`, `updated_at`, `display_name`). -/
def updateFirstVote (pid : Nat) (uid dname emoji : String) (now : Nat) :
    List VoteRow → List VoteRow
  | [] => []
  | v :: vs =>
    if v.poll_id = pid ∧ v.user_id = uid then
      { v with emoji := emoji, display_name := dname, updated_at := now } :: vs
    else
      v :: updateFirstVote pid uid dname emoji now vs

/-- `session.delete(vote)` on the row returned by `.first()`: remove the
first row matching the (poll, user) key. -/
def removeFirstVote (pid : Nat) (uid : String) : List VoteRow → List VoteRow
  | [] => []
  | v :: vs =>
    if v.poll_id = pid ∧ v.user_id = uid then vs
    else v :: removeFirstVote pid uid vs

/-- `DatabaseManager.save_vote` (src/database/database_manager.py lines
236-278), successful-commit path: find the poll by message id (missing poll
logs a warning and returns), then update the user's existing vote in place
or insert a fresh row. -/
def save_vote (mid uid uname dname emoji : String) (now : Nat) (db : DB) : DB :=
  match findPoll mid db with
  | none => db
  | some p =>
    match findVote p.id uid db.votes with
    | some _ =>
      { db with votes := updateFirstVote p.id uid dname emoji now db.votes }
    | none =>
      { db with votes := db.votes ++ [⟨p.id, uid, uname, dname, emoji, now⟩] }

/-- `DatabaseManager.remove_vote` (lines 280-302), successful-commit path:
missing poll or missing vote are silent no-ops; otherwise the row is
deleted. -/
def remove_vote (mid uid : String) (db : DB) : DB :=
  match findPoll mid db with
  | none => db
  | some p =>
    match findVote p.id uid db.votes with
    | none => db
    | some _ => { db with votes := removeFirstVote p.id uid db.votes }

/-- Insertion into the `vote_results` Python dict of `get_poll_votes`:
append the display name to the emoji's bucket, creating the bucket at the
end on first sight (Python dicts preserve insertion order). -/
def groupInsert : List (String × List String) → String → String →
    List (String × List String)
  | [], e, n => [(e, [n])]
  | (e', ns) :: rest, e, n =>
    if e' = e then (e', ns ++ [n]) :: rest
    else (e', ns) :: groupInsert rest e n

/-- `DatabaseManager.get_poll_votes` (lines 304-327): all votes of the poll
grouped by emoji, collecting display names in row order. -/
def get_poll_votes (mid : String) (db : DB) : List (String × List String) :=
  match findPoll mid db with
  | none => []
  | some p =>
    (db.votes.filter (fun v => v.poll_id = p.id)).foldl
      (fun acc v => groupInsert acc v.emoji v.display_name) []

/-- Number of vote rows stored for one (poll, voter) pair. -/
def pairCount (pid : Nat) (uid : String) (votes : List VoteRow) : Nat :=
  (votes.filter (fun v => v.poll_id = pid ∧ v.user_id = uid)).length

/-- The (poll, voter) keys are pairwise distinct across the vote table. -/
def VoteKeysUnique (votes : List VoteRow) : Prop :=
  votes.Pairwise (fun a b => a.poll_id ≠ b.poll_id ∨ a.user_id ≠ b.user_id)

instance : DecidablePred VoteKeysUnique := fun votes => by
  unfold VoteKeysUnique
  infer_instance

/-! Basic lemmas about the vote-table primitives. -/

theorem updateFirstVote_of_none (pid : Nat) (uid dname emoji : String)
    (now : Nat) (votes : List VoteRow) (h : findVote pid uid votes = none) :
    updateFirstVote pid uid dname emoji now votes = votes := by
  induction votes with
  | nil => rfl
  | cons v vs ih =>
    rw [findVote, List.find?_cons] at h
    by_cases hv : v.poll_id = pid ∧ v.user_id = uid
    · simp [hv] at h
    · simp only [updateFirstVote, if_neg hv]
      rw [decide_eq_false hv] at h
      exact congrArg (v :: ·) (ih h)

theorem updateFirstVote_length (pid : Nat) (uid dname emoji : String)
    (now : Nat) (votes : List VoteRow) :
    (updateFirstVote pid uid dname emoji now votes).length = votes.length := by
  induction votes with
  | nil => rfl
  | cons v vs ih =>
    by_cases hv : v.poll_id = pid ∧ v.user_id = uid
    · simp [updateFirstVote, if_pos hv]
    · simp [updateFirstVote, if_neg hv, ih]

theorem findVote_updateFirstVote_self (pid : Nat) (uid dname emoji : String)
    (now : Nat) (votes : List VoteRow) (v : VoteRow)
    (h : findVote pid uid votes = some v) :
    findVote pid uid (updateFirstVote pid uid dname emoji now votes)
      = some { v with emoji := emoji, display_name := dname, updated_at := now } := by
  induction votes with
  | nil => simp [findVote] at h
  | cons w ws ih =>
    by_cases hw : w.poll_id = pid ∧ w.user_id = uid
    · rw [findVote, List.find?_cons_of_pos _ (by simpa using hw)] at h
      cases h
      simp only [updateFirstVote, if_pos hw]
      rw [findVote, List.find?_cons_of_pos _ (by simpa using hw)]
    · rw [findVote, List.find?_cons_of_neg _ (by simpa using hw)] at h
      simp only [updateFirstVote, if_neg hw]
      rw [findVote, List.find?_cons_of_neg _ (by simpa using hw)]
      exact ih h

theorem findVote_updateFirstVote_other (pid : Nat) (uid dname emoji : String)
    (now : Nat) (votes : List VoteRow) (pid' : Nat) (uid' : String)
    (hne : ¬ (pid' = pid ∧ uid' = uid)) :
    findVote pid' uid' (updateFirstVote pid uid dname emoji now votes)
      = findVote pid' uid' votes := by
  induction votes with
  | nil => rfl
  | cons w ws ih =>
    by_cases hw : w.poll_id = pid ∧ w.user_id = uid
    · have hw' : ¬ (w.poll_id = pid' ∧ w.user_id = uid') := by
        rintro ⟨h1, h2⟩
        exact hne ⟨by rw [← h1, hw.1], by rw [← h2, hw.2]⟩
      simp only [updateFirstVote, if_pos hw]
      rw [findVote, List.find?_cons_of_neg _ (by simpa using hw'),
        findVote, List.find?_cons_of_neg _ (by simpa using hw')]
    · simp only [updateFirstVote, if_neg hw]
      by_cases hw' : w.poll_id = pid' ∧ w.user_id = uid'
      · rw [findVote, List.find?_cons_of_pos _ (by simpa using hw'),
          findVote, List.find?_cons_of_pos _ (by simpa using hw')]
      · rw [findVote, List.find?_cons_of_neg _ (by simpa using hw'),
          findVote, List.find?_cons_of_neg _ (by simpa using hw')]
        exact ih

theorem updateFirstVote_keys (pid : Nat) (uid dname emoji : String)
    (now : Nat) (votes : List VoteRow) :
    ∀ b ∈ updateFirstVote pid uid dname emoji now votes,
      ∃ b' ∈ votes, b.poll_id = b'.poll_id ∧ b.user_id = b'.user_id := by
  induction votes with
  | nil => intro b hb; simp [updateFirstVote] at hb
  | cons v vs ih =>
    intro b hb
    by_cases hv : v.poll_id = pid ∧ v.user_id = uid
    · rw [updateFirstVote, if_pos hv] at hb
      rcases List.mem_cons.mp hb with h | h
      · exact ⟨v, List.mem_cons_self .., by subst h; exact ⟨rfl, rfl⟩⟩
      · exact ⟨b, List.mem_cons_of_mem _ h, rfl, rfl⟩
    · rw [updateFirstVote, if_neg hv] at hb
      rcases List.mem_cons.mp hb with h | h
      · exact ⟨v, List.mem_cons_self .., by subst h; exact ⟨rfl, rfl⟩⟩
      · obtain ⟨b', hb', hk⟩ := ih b h
        exact ⟨b', List.mem_cons_of_mem _ hb', hk⟩

theorem voteKeysUnique_updateFirstVote (pid : Nat) (uid dname emoji : String)
    (now : Nat) (votes : List VoteRow) (h : VoteKeysUnique votes) :
    VoteKeysUnique (updateFirstVote pid uid dname emoji now votes) := by
  induction votes with
  | nil => exact h
  | cons v vs ih =>
    rcases List.pairwise_cons.mp h with ⟨hv, hvs⟩
    by_cases hm : v.poll_id = pid ∧ v.user_id = uid
    · rw [VoteKeysUnique, updateFirstVote, if_pos hm]
      exact List.pairwise_cons.mpr ⟨fun b hb => hv b hb, hvs⟩
    · rw [VoteKeysUnique, updateFirstVote, if_neg hm]
      refine List.pairwise_cons.mpr ⟨fun b hb => ?_, ih hvs⟩
      obtain ⟨b', hb', hk1, hk2⟩ :=
        updateFirstVote_keys pid uid dname emoji now vs b hb
      rw [hk1, hk2]
      exact hv b' hb'

theorem removeFirstVote_sublist (pid : Nat) (uid : String)
    (votes : List VoteRow) : (removeFirstVote pid uid votes).Sublist votes := by
  induction votes with
  | nil => exact List.Sublist.refl _
  | cons v vs ih =>
    by_cases hv : v.poll_id = pid ∧ v.user_id = uid
    · rw [removeFirstVote, if_pos hv]
      exact List.sublist_cons_self v vs
    · rw [removeFirstVote, if_neg hv]
      exact List.Sublist.cons₂ v ih

theorem voteKeysUnique_removeFirstVote (pid : Nat) (uid : String)
    (votes : List VoteRow) (h : VoteKeysUnique votes) :
    VoteKeysUnique (removeFirstVote pid uid votes) :=
  List.Pairwise.sublist (removeFirstVote_sublist pid uid votes) h

theorem removeFirstVote_of_none (pid : Nat) (uid : String)
    (votes : List VoteRow) (h : findVote pid uid votes = none) :
    removeFirstVote pid uid votes = votes := by
  induction votes with
  | nil => rfl
  | cons v vs ih =>
    by_cases hv : v.poll_id = pid ∧ v.user_id = uid
    · rw [findVote, List.find?_cons_of_pos _ (by simpa using hv)] at h
      cases h
    · rw [findVote, List.find?_cons_of_neg _ (by simpa using hv)] at h
      rw [removeFirstVote, if_neg hv, ih h]

theorem findVote_removeFirstVote_self (pid : Nat) (uid : String)
    (votes : List VoteRow) (h : VoteKeysUnique votes) :
    findVote pid uid (removeFirstVote pid uid votes) = none := by
  induction votes with
  | nil => rfl
  | cons v vs ih =>
    rcases List.pairwise_cons.mp h with ⟨hv, hvs⟩
    by_cases hm : v.poll_id = pid ∧ v.user_id = uid
    · rw [removeFirstVote, if_pos hm]
      rw [findVote, List.find?_eq_none]
      intro b hb hkey
      rcases of_decide_eq_true hkey with ⟨h1, h2⟩
      rcases hv b hb with h3 | h3
      · exact h3 (by rw [hm.1, h1])
      · exact h3 (by rw [hm.2, h2])
    · rw [removeFirstVote, if_neg hm]
      rw [findVote, List.find?_cons_of_neg _ (by simpa using hm)]
      exact ih hvs

theorem findVote_removeFirstVote_other (pid : Nat) (uid : String)
    (votes : List VoteRow) (pid' : Nat) (uid' : String)
    (hne : ¬ (pid' = pid ∧ uid' = uid)) :
    findVote pid' uid' (removeFirstVote pid uid votes)
      = findVote pid' uid' votes := by
  induction votes with
  | nil => rfl
  | cons v vs ih =>
    by_cases hv : v.poll_id = pid ∧ v.user_id = uid
    · have hv' : ¬ (v.poll_id = pid' ∧ v.user_id = uid') := by
        rintro ⟨h1, h2⟩
        exact hne ⟨by rw [← h1, hv.1], by rw [← h2, hv.2]⟩
      rw [removeFirstVote, if_pos hv]
      conv_rhs => rw [findVote, List.find?_cons_of_neg _ (by simpa using hv')]
      rfl
    · rw [removeFirstVote, if_neg hv]
      by_cases hv' : v.poll_id = pid' ∧ v.user_id = uid'
      · rw [findVote, List.find?_cons_of_pos _ (by simpa using hv'),
          findVote, List.find?_cons_of_pos _ (by simpa using hv')]
      · rw [findVote, List.find?_cons_of_neg _ (by simpa using hv'),
          findVote, List.find?_cons_of_neg _ (by simpa using hv')]
        exact ih

theorem pairCount_updateFirstVote (pid : Nat) (uid dname emoji : String)
    (now : Nat) (votes : List VoteRow) (pid' : Nat) (uid' : String) :
    pairCount pid' uid' (updateFirstVote pid uid dname emoji now votes)
      = pairCount pid' uid' votes := by
  induction votes with
  | nil => rfl
  | cons v vs ih =>
    by_cases hv : v.poll_id = pid ∧ v.user_id = uid
    · rw [updateFirstVote, if_pos hv]
      by_cases hv' : v.poll_id = pid' ∧ v.user_id = uid'
      · rw [pairCount, List.filter_cons_of_pos (by simpa using hv'),
          pairCount, List.filter_cons_of_pos (by simpa using hv')]
        rfl
      · rw [pairCount, List.filter_cons_of_neg (by simpa using hv'),
          pairCount, List.filter_cons_of_neg (by simpa using hv')]
    · rw [updateFirstVote, if_neg hv]
      by_cases hv' : v.poll_id = pid' ∧ v.user_id = uid'
      · rw [pairCount, List.filter_cons_of_pos (by simpa using hv'),
          pairCount, List.filter_cons_of_pos (by simpa using hv')]
        simpa [pairCount] using ih
      · rw [pairCount, List.filter_cons_of_neg (by simpa using hv'),
          pairCount, List.filter_cons_of_neg (by simpa using hv')]
        exact ih

theorem pairCount_eq_zero_of_findVote_none (pid : Nat) (uid : String)
    (votes : List VoteRow) (h : findVote pid uid votes = none) :
    pairCount pid uid votes = 0 := by
  rw [pairCount, List.length_eq_zero, List.filter_eq_nil_iff]
  intro v hv
  rw [findVote, List.find?_eq_none] at h
  exact h v hv

/-- A first end-to-end sanity check of the embedded store on a concrete
trace: one insert, one overwrite, one removal. -/
example :
    let db0 : DB := ⟨[], [], [⟨1, 1, "g", "c", "m1", "d", false, 0⟩], []⟩
    let db1 := save_vote "m1" "u1" "alice" "Alice" "A" 1 db0
    let db2 := save_vote "m1" "u1" "alice" "Alice" "B" 2 db1
    let db3 := remove_vote "m1" "u1" db2
    db1.votes = [⟨1, "u1", "alice", "Alice", "A", 1⟩] ∧
    db2.votes = [⟨1, "u1", "alice", "Alice", "B", 2⟩] ∧
    db3.votes = [] ∧
    get_poll_votes "m1" db2 = [("B", ["Alice"])] := by
  decide

/-- C2: `save_vote` is an upsert keyed on (poll, voter): for a pair that
already has a stored vote it rewrites that row's emoji, display name and
update timestamp in place and inserts nothing, for a fresh pair it inserts
exactly one new row, and the at-most-one-Vote-per-(poll, voter) invariant is
preserved. -/
theorem save_vote_upsert_unique (mid uid uname dname emoji : String)
    (now : Nat) (db : DB) (P : PollRow) (hP : findPoll mid db = some P) :
    (findVote P.id uid db.votes = none →
      (save_vote mid uid uname dname emoji now db).votes
          = db.votes ++ [⟨P.id, uid, uname, dname, emoji, now⟩] ∧
      pairCount P.id uid (save_vote mid uid uname dname emoji now db).votes = 1) ∧
    (∀ v, findVote P.id uid db.votes = some v →
      (save_vote mid uid uname dname emoji now db).votes.length
          = db.votes.length ∧
      pairCount P.id uid (save_vote mid uid uname dname emoji now db).votes
          = pairCount P.id uid db.votes ∧
      findVote P.id uid (save_vote mid uid uname dname emoji now db).votes
          = some { v with emoji := emoji, display_name := dname,
                          updated_at := now }) ∧
    (VoteKeysUnique db.votes →
      VoteKeysUnique (save_vote mid uid uname dname emoji now db).votes) := by
  refine ⟨fun hnone => ?_, fun v hv => ?_, fun huniq => ?_⟩
  · simp only [save_vote, hP, hnone]
    refine ⟨trivial, ?_⟩
    have h0 := pairCount_eq_zero_of_findVote_none P.id uid db.votes hnone
    rw [pairCount] at h0
    rw [pairCount, List.filter_append, List.length_append, h0,
      List.filter_cons_of_pos (by simp)]
    rfl
  · simp only [save_vote, hP, hv]
    exact ⟨updateFirstVote_length .., pairCount_updateFirstVote ..,
      findVote_updateFirstVote_self P.id uid dname emoji now db.votes v hv⟩
  · simp only [save_vote, hP]
    cases hfind : findVote P.id uid db.votes with
    | none =>
      simp only [hfind]
      rw [VoteKeysUnique, List.pairwise_append]
      refine ⟨huniq, List.pairwise_singleton .., fun a ha b hb => ?_⟩
      rw [List.mem_singleton] at hb
      subst hb
      rw [findVote, List.find?_eq_none] at hfind
      have := hfind a ha
      simp only [decide_eq_true_eq] at this
      by_cases h1 : a.poll_id = P.id
      · exact Or.inr fun h2 => this ⟨h1, h2⟩
      · exact Or.inl h1
    | some w =>
      simp only [hfind]
      exact voteKeysUnique_updateFirstVote P.id uid dname emoji now
        db.votes huniq

/-- Witness for C2 at a concrete store: inserting a fresh (poll, voter) pair
appends exactly one row. -/
theorem save_vote_upsert_unique_witness :
    findVote 1 "u2"
        [(⟨1, "u1", "alice", "Alice", "A", 1⟩ : VoteRow)] = none ∧
    (save_vote "m1" "u2" "bob" "Bob" "B" 2
        ⟨[], [], [⟨1, 1, "g", "c", "m1", "d", false, 0⟩],
          [⟨1, "u1", "alice", "Alice", "A", 1⟩]⟩).votes
      = [⟨1, "u1", "alice", "Alice", "A", 1⟩,
         ⟨1, "u2", "bob", "Bob", "B", 2⟩] :=
  ⟨by decide,
    ((save_vote_upsert_unique "m1" "u2" "bob" "Bob" "B" 2
        ⟨[], [], [⟨1, 1, "g", "c", "m1", "d", false, 0⟩],
          [⟨1, "u1", "alice", "Alice", "A", 1⟩]⟩
        ⟨1, 1, "g", "c", "m1", "d", false, 0⟩ (by decide)).1 (by decide)).1⟩

/-! ### Exception behaviour of `save_vote` / `remove_vote`

The Python methods wrap their work in `try/except SQLAlchemyError`-style
handlers.  `commitFails` models the store failing at the commit of the
write; the session is rolled back, so the store is left unchanged.  The
second component is the exception escaping to the caller: `save_vote`
re-raises (`raise` in its except block), `remove_vote` only logs. -/

/-- `DatabaseManager.save_vote` including its error handling (lines
236-278): a missing poll logs a warning and returns normally; a failing
commit rolls back and re-raises to the caller. -/
def save_vote_run (commitFails : Bool) (mid uid uname dname emoji : String)
    (now : Nat) (db : DB) : DB × Option String :=
  match findPoll mid db with
  | none => (db, none)
  | some _ =>
    if commitFails then (db, some "Failed to save vote")
    else (save_vote mid uid uname dname emoji now db, none)

/-- `DatabaseManager.remove_vote` including its error handling (lines
280-302): missing poll or missing vote return normally without touching the
store; a failing commit rolls back, is logged, and is **not** re-raised. -/
def remove_vote_run (commitFails : Bool) (mid uid : String) (db : DB) :
    DB × Option String :=
  match findPoll mid db with
  | none => (db, none)
  | some p =>
    match findVote p.id uid db.votes with
    | none => (db, none)
    | some _ =>
      if commitFails then (db, none)
      else (remove_vote mid uid db, none)

/-- C10: `remove_vote` is total and idempotent at the public interface — a
call with no poll row for the message, or with no stored vote for the user,
changes nothing and raises nothing; no call of `remove_vote` ever
propagates an error to the caller, while `save_vote` propagates a store
failure whenever the poll exists. -/
theorem remove_vote_total_and_silent (commitFails : Bool) (mid uid : String)
    (db : DB) :
    (findPoll mid db = none →
      remove_vote_run commitFails mid uid db = (db, none)) ∧
    (∀ p, findPoll mid db = some p → findVote p.id uid db.votes = none →
      remove_vote_run commitFails mid uid db = (db, none)) ∧
    (remove_vote_run commitFails mid uid db).2 = none ∧
    (∀ p uname dname emoji now, findPoll mid db = some p →
      commitFails = true →
      (save_vote_run commitFails mid uid uname dname emoji now db).2
        = some "Failed to save vote") := by
  refine ⟨fun hnone => ?_, fun p hp hv => ?_, ?_, fun p uname dname emoji now hp hc => ?_⟩
  · simp [remove_vote_run, hnone]
  · simp [remove_vote_run, hp, hv]
  · rw [remove_vote_run]
    cases hp : findPoll mid db with
    | none => rfl
    | some p =>
      cases hv : findVote p.id uid db.votes with
      | none => simp [hv]
      | some v =>
        by_cases hc : commitFails = true
        · simp [hv, hc]
        · simp [hv, hc]
  · subst hc
    simp [save_vote_run, hp]

/-- Witness for C10 at a concrete store with one poll and one vote: removal
for a voter with no stored vote is a no-op, removal never raises even when
the commit fails, and `save_vote` raises on the same failing store. -/
theorem remove_vote_total_and_silent_witness :
    (findVote 1 "u2"
        [(⟨1, "u1", "alice", "Alice", "A", 1⟩ : VoteRow)] = none) ∧
    remove_vote_run true "m1" "u2"
        ⟨[], [], [⟨1, 1, "g", "c", "m1", "d", false, 0⟩],
          [⟨1, "u1", "alice", "Alice", "A", 1⟩]⟩
      = (⟨[], [], [⟨1, 1, "g", "c", "m1", "d", false, 0⟩],
          [⟨1, "u1", "alice", "Alice", "A", 1⟩]⟩, none) ∧
    (save_vote_run true "m1" "u1" "alice" "Alice" "B" 2
        ⟨[], [], [⟨1, 1, "g", "c", "m1", "d", false, 0⟩],
          [⟨1, "u1", "alice", "Alice", "A", 1⟩]⟩).2
      = some "Failed to save vote" :=
  ⟨by decide,
    (remove_vote_total_and_silent true "m1" "u2"
        ⟨[], [], [⟨1, 1, "g", "c", "m1", "d", false, 0⟩],
          [⟨1, "u1", "alice", "Alice", "A", 1⟩]⟩).2.1
      ⟨1, 1, "g", "c", "m1", "d", false, 0⟩ (by decide) (by decide),
    (remove_vote_total_and_silent true "m1" "u1"
        ⟨[], [], [⟨1, 1, "g", "c", "m1", "d", false, 0⟩],
          [⟨1, "u1", "alice", "Alice", "A", 1⟩]⟩).2.2.2
      ⟨1, 1, "g", "c", "m1", "d", false, 0⟩ "alice" "Alice" "B" 2
      (by decide) rfl⟩

/-! ### ConfigManager (src/bot/config.py)

The manager keeps a Python dict `self.configs` (guild id → config dict)
mirrored to the file `config/servers.json` by `save_configs`.  Dicts become
association lists in insertion order; the persisted file becomes an
`Option` holding the last list written. -/

/-- One guild's JSON config dict, with the keys `get_default_config`
produces. -/
structure GuildCfg where
  enabled : Bool
  channel_id : Option String
  poll_hour : Nat
  poll_minute : Nat
  timezone : String
  poll_options : List String
  poll_history : List Nat
deriving Repr, DecidableEq

/-- `ConfigManager.get_default_config` (src/bot/config.py lines 48-66),
with the seven built-in option strings copied byte-for-byte from the
source file. -/
def get_default_config : GuildCfg where
  enabled := false
  channel_id := none
  poll_hour := 8
  poll_minute := 0
  timezone := "UTC"
  poll_options :=
    ["âœ… Ð¡Ð²Ð¾Ð±Ð¾Ð´ÐµÐ½ Ñ†ÑÐ» Ð´ÐµÐ½",
     "ðŸŒ… Ð¡Ð²Ð¾Ð±Ð¾Ð´ÐµÐ½ ÑÑƒÑ‚Ñ€Ð¸Ð½ (9:00 - 12:00)",
     "â˜€ï¸ Ð¡Ð²Ð¾Ð±Ð¾Ð´ÐµÐ½ ÑÐ»ÐµÐ´Ð¾Ð±ÐµÐ´ (12:00 - 18:00)",
     "ðŸŒ™ Ð¡Ð²Ð¾Ð±Ð¾Ð´ÐµÐ½ Ð²ÐµÑ‡ÐµÑ€ (18:00 - 23:00)",
     "ðŸŒƒ Ð¡Ð²Ð¾Ð±Ð¾Ð´ÐµÐ½ ÐºÑŠÑÐ½Ð¾ Ð²ÐµÑ‡ÐµÑ€ (23:00+)",
     "ðŸ¤” ÐÐµ ÑÑŠÐ¼ ÑÐ¸Ð³ÑƒÑ€ÐµÐ½",
     "âŒ ÐÐµ ÑÑŠÐ¼ ÑÐ²Ð¾Ð±Ð¾Ð´ÐµÐ½"]
  poll_history := []

/-- The in-memory configs dict and the persisted `servers.json` mirror. -/
structure CMState where
  configs : List (String × GuildCfg)
  file : Option (List (String × GuildCfg))
deriving Repr, DecidableEq

/-- Python `guild_id in self.configs` / `self.configs.get(guild_id)`. -/
def lookupCfg (cs : List (String × GuildCfg)) (g : String) : Option GuildCfg :=
  (cs.find? (fun p => p.1 = g)).map (·.2)

/-- `ConfigManager.initialize_guild` (lines 68-74): on an unseen guild id,
store the default config and persist via `save_configs`. -/
def initialize_guild (g : String) (st : CMState) : CMState :=
  if (lookupCfg st.configs g).isSome then st
  else
    let cfgs := st.configs ++ [(g, get_default_config)]
    { configs := cfgs, file := some cfgs }

/-- `ConfigManager.get_guild_config` (lines 76-81): initialize on first
access, then return the stored dict (`.get` falling back to the default). -/
def get_guild_config (g : String) (st : CMState) : CMState × GuildCfg :=
  if (lookupCfg st.configs g).isSome then
    (st, (lookupCfg st.configs g).getD get_default_config)
  else
    let st1 := initialize_guild g st
    (st1, (lookupCfg st1.configs g).getD get_default_config)

theorem lookupCfg_append_self (cs : List (String × GuildCfg)) (g : String)
    (c : GuildCfg) (h : lookupCfg cs g = none) :
    lookupCfg (cs ++ [(g, c)]) g = some c := by
  rw [lookupCfg, Option.map_eq_none'] at h
  rw [lookupCfg, List.find?_append, h, Option.none_or,
    List.find?_cons_of_pos _ (by simp)]
  rfl

theorem initialize_guild_of_present (g : String) (st : CMState)
    (h : (lookupCfg st.configs g).isSome) : initialize_guild g st = st := by
  rw [initialize_guild, if_pos h]

/-- C8: the first `get_guild_config` for an unseen guild returns the
default config — disabled, no channel, 08:00 UTC, the seven built-in
options, empty history — and persists it; a second get returns the same
stored config and leaves the state unchanged. -/
theorem get_guild_config_first_access (g : String) (st : CMState)
    (hnew : lookupCfg st.configs g = none) :
    (get_guild_config g st).2 = get_default_config ∧
    (get_guild_config g st).2.enabled = false ∧
    (get_guild_config g st).2.channel_id = none ∧
    (get_guild_config g st).2.poll_hour = 8 ∧
    (get_guild_config g st).2.poll_minute = 0 ∧
    (get_guild_config g st).2.timezone = "UTC" ∧
    (get_guild_config g st).2.poll_options.length = 7 ∧
    lookupCfg (get_guild_config g st).1.configs g = some get_default_config ∧
    (get_guild_config g st).1.file = some (get_guild_config g st).1.configs ∧
    get_guild_config g (get_guild_config g st).1
      = ((get_guild_config g st).1, get_default_config) := by
  have hmem : lookupCfg (st.configs ++ [(g, get_default_config)]) g
      = some get_default_config := lookupCfg_append_self st.configs g _ hnew
  have hinit : initialize_guild g st
      = ⟨st.configs ++ [(g, get_default_config)],
         some (st.configs ++ [(g, get_default_config)])⟩ := by
    rw [initialize_guild, if_neg (by rw [hnew]; simp)]
  have hget : get_guild_config g st
      = (⟨st.configs ++ [(g, get_default_config)],
          some (st.configs ++ [(g, get_default_config)])⟩,
         get_default_config) := by
    rw [get_guild_config, if_neg (by rw [hnew]; simp)]
    show (initialize_guild g st,
        (lookupCfg (initialize_guild g st).configs g).getD get_default_config) = _
    rw [hinit]
    show (_, (lookupCfg (st.configs ++ [(g, get_default_config)]) g).getD
        get_default_config) = _
    rw [hmem]
    rfl
  refine ⟨by rw [hget], by rw [hget]; rfl, by rw [hget]; rfl, by rw [hget]; rfl,
    by rw [hget]; rfl, by rw [hget]; rfl, by rw [hget]; rfl,
    by rw [hget]; exact hmem, by rw [hget], ?_⟩
  rw [hget]
  rw [get_guild_config, if_pos (by rw [hmem]; rfl), hmem]
  rfl

/-- Witness for C8: first access on an empty manager state yields the
default config and persists it. -/
theorem get_guild_config_first_access_witness :
    lookupCfg ([] : List (String × GuildCfg)) "42" = none ∧
    (get_guild_config "42" ⟨[], none⟩).2 = get_default_config ∧
    (get_guild_config "42" ⟨[], none⟩).1.file
      = some (get_guild_config "42" ⟨[], none⟩).1.configs :=
  ⟨rfl,
    (get_guild_config_first_access "42" ⟨[], none⟩ rfl).1,
    (get_guild_config_first_access "42" ⟨[], none⟩ rfl).2.2.2.2.2.2.2.2.1⟩

/-! ### PollScheduler job table (src/bot/scheduler.py)

APScheduler's job store becomes a list of (job id, cron trigger) entries;
`get_job` / `remove_job` / `add_job(replace_existing=True)` are embedded
directly.  The pytz collaborator is modelled by a fixed catalogue of known
zone names: `pytz.timezone` raises `UnknownTimeZoneError` on any name
outside it. -/

/-- A daily cron trigger at local (hour, minute) in a timezone. -/
structure CronTrigger where
  hour : Nat
  minute : Nat
  timezone : String
deriving Repr, DecidableEq

/-- An APScheduler job entry. -/
structure SchedJob where
  job_id : String
  trigger : CronTrigger
deriving Repr, DecidableEq

/-- A representative catalogue of zone names the pytz collaborator
resolves. -/
def knownTimezones : List String :=
  ["UTC", "Europe/Sofia", "Europe/London", "America/New_York", "Asia/Tokyo"]

/-- `pytz.timezone(name)`: resolve a known zone or raise
`UnknownTimeZoneError`. -/
def pytz_timezone (name : String) : Except String String :=
  if name ∈ knownTimezones then .ok name
  else .error ("UnknownTimeZoneError: " ++ name)

/-- `scheduler.get_job(job_id)`. -/
def get_job (jobs : List SchedJob) (jid : String) : Option SchedJob :=
  jobs.find? (fun j => j.job_id = jid)

/-- `scheduler.remove_job(job_id)`. -/
def remove_job (jobs : List SchedJob) (jid : String) : List SchedJob :=
  jobs.filter (fun j => j.job_id ≠ jid)

/-- `scheduler.add_job(..., id=job_id, replace_existing=True)`. -/
def add_job (jobs : List SchedJob) (jid : String) (t : CronTrigger) :
    List SchedJob :=
  remove_job jobs jid ++ [⟨jid, t⟩]

/-- The config dict handed to the scheduler, with `.get`-style optional
keys. -/
structure SchedCfg where
  poll_hour : Option Nat
  poll_minute : Option Nat
  timezone : Option String
deriving Repr, DecidableEq

/-- Outcome of one `schedule_guild_poll` call: the job table afterwards,
the message given to `logger.error` if the `except` branch ran, and any
exception escaping to the caller. -/
structure ScheduleResult where
  jobs : List SchedJob
  logged : Option String
  raised : Option String
deriving Repr, DecidableEq

/-- `PollScheduler.schedule_guild_poll` (src/bot/scheduler.py lines
64-102): resolve the timezone, build the daily cron trigger, remove any
existing job for the guild and add the new one.  The whole body sits in a
`try/except Exception` whose handler only logs, so an unknown timezone
ends the call with the job table untouched and nothing raised. -/
def schedule_guild_poll (jobs : List SchedJob) (guild_id : String)
    (config : SchedCfg) : ScheduleResult :=
  match pytz_timezone (config.timezone.getD "UTC") with
  | .error e =>
    ⟨jobs, some ("Failed to schedule poll for guild " ++ guild_id ++ ": " ++ e),
      none⟩
  | .ok tz =>
    let poll_hour := config.poll_hour.getD 20
    let poll_minute := config.poll_minute.getD 0
    let trigger : CronTrigger := ⟨poll_hour, poll_minute, tz⟩
    let job_id := "daily_poll_" ++ guild_id
    let jobs1 := if (get_job jobs job_id).isSome then remove_job jobs job_id
      else jobs
    ⟨add_job jobs1 job_id trigger, none, none⟩

/-- Number of live triggers for one guild's job id. -/
def triggerCount (jobs : List SchedJob) (guild_id : String) : Nat :=
  (jobs.filter (fun j => j.job_id = "daily_poll_" ++ guild_id)).length

theorem triggerCount_add_job (jobs : List SchedJob) (guild_id : String)
    (t : CronTrigger) :
    triggerCount (add_job jobs ("daily_poll_" ++ guild_id) t) guild_id = 1 := by
  rw [triggerCount, add_job, List.filter_append]
  have h1 : (remove_job jobs ("daily_poll_" ++ guild_id)).filter
      (fun j => j.job_id = "daily_poll_" ++ guild_id) = [] := by
    rw [remove_job, List.filter_filter, List.filter_eq_nil_iff]
    intro j _
    simp only [Bool.and_eq_true, decide_eq_true_eq, ne_eq, not_and_self_iff,
      decide_eq_true_eq]
    tauto
  rw [h1, List.nil_append, List.filter_cons_of_pos (by simp)]
  rfl

theorem schedule_guild_poll_jobs_of_ok (jobs : List SchedJob)
    (guild_id : String) (config : SchedCfg) (tz : String)
    (h : pytz_timezone (config.timezone.getD "UTC") = .ok tz) :
    (schedule_guild_poll jobs guild_id config).jobs
      = add_job
          (if (get_job jobs ("daily_poll_" ++ guild_id)).isSome
            then remove_job jobs ("daily_poll_" ++ guild_id) else jobs)
          ("daily_poll_" ++ guild_id)
          ⟨config.poll_hour.getD 20, config.poll_minute.getD 0, tz⟩ := by
  rw [schedule_guild_poll, h]

/-- C4: scheduling a guild whose timezone resolves leaves exactly one
active trigger for that guild — never zero, never two — and a second
`schedule_guild_poll` for the same guild still leaves exactly one. -/
theorem schedule_replaces_to_single_trigger (jobs : List SchedJob)
    (guild_id : String) (config config2 : SchedCfg) (tz tz2 : String)
    (h : pytz_timezone (config.timezone.getD "UTC") = .ok tz)
    (h2 : pytz_timezone (config2.timezone.getD "UTC") = .ok tz2) :
    triggerCount (schedule_guild_poll jobs guild_id config).jobs guild_id = 1 ∧
    triggerCount
      (schedule_guild_poll (schedule_guild_poll jobs guild_id config).jobs
        guild_id config2).jobs guild_id = 1 := by
  constructor
  · rw [schedule_guild_poll_jobs_of_ok jobs guild_id config tz h]
    exact triggerCount_add_job _ guild_id _
  · rw [schedule_guild_poll_jobs_of_ok _ guild_id config2 tz2 h2]
    exact triggerCount_add_job _ guild_id _

/-- Witness for C4: scheduling guild "g" twice over a table that already
has an unrelated job keeps exactly one trigger for "g". -/
theorem schedule_replaces_to_single_trigger_witness :
    pytz_timezone ((some "UTC" : Option String).getD "UTC") = .ok "UTC" ∧
    triggerCount
      (schedule_guild_poll
        (schedule_guild_poll [⟨"daily_poll_h", ⟨9, 30, "UTC"⟩⟩] "g"
          ⟨some 20, some 0, some "UTC"⟩).jobs
        "g" ⟨some 7, some 15, some "Europe/Sofia"⟩).jobs "g" = 1 :=
  ⟨rfl,
    (schedule_replaces_to_single_trigger [⟨"daily_poll_h", ⟨9, 30, "UTC"⟩⟩]
      "g" ⟨some 20, some 0, some "UTC"⟩ ⟨some 7, some 15, some "Europe/Sofia"⟩
      "UTC" "Europe/Sofia" rfl rfl).2⟩

/-- Counterexample to C5: with an unknown timezone, `schedule_guild_poll`
does not surface any error to its caller — the exception is caught and
logged inside the method (the prior trigger is indeed kept). -/
theorem schedule_invalid_tz_not_surfaced :
    (schedule_guild_poll [⟨"daily_poll_g", ⟨20, 0, "UTC"⟩⟩] "g"
        ⟨some 20, some 0, some "Invalid/Zone"⟩).raised = none ∧
    (schedule_guild_poll [⟨"daily_poll_g", ⟨20, 0, "UTC"⟩⟩] "g"
        ⟨some 20, some 0, some "Invalid/Zone"⟩).jobs
      = [⟨"daily_poll_g", ⟨20, 0, "UTC"⟩⟩] := by
  constructor
  · rfl
  · rfl

/-- C5 as amended: an unresolvable timezone makes `schedule_guild_poll`
leave the job table (and hence the guild's prior trigger) unchanged and
swallow the failure — the error is logged inside the method, and nothing
is raised to the caller. -/
theorem schedule_invalid_tz_keeps_prior (jobs : List SchedJob)
    (guild_id : String) (config : SchedCfg) (e : String)
    (h : pytz_timezone (config.timezone.getD "UTC") = .error e) :
    (schedule_guild_poll jobs guild_id config).jobs = jobs ∧
    (schedule_guild_poll jobs guild_id config).raised = none ∧
    (schedule_guild_poll jobs guild_id config).logged
      = some ("Failed to schedule poll for guild " ++ guild_id ++ ": " ++ e) := by
  rw [schedule_guild_poll, h]
  exact ⟨rfl, rfl, rfl⟩

/-- Witness for the amended C5 at a concrete unknown zone. -/
theorem schedule_invalid_tz_keeps_prior_witness :
    pytz_timezone ((some "Mars/Olympus" : Option String).getD "UTC")
      = .error "UnknownTimeZoneError: Mars/Olympus" ∧
    (schedule_guild_poll [⟨"daily_poll_g", ⟨8, 0, "Europe/Sofia"⟩⟩] "g"
        ⟨none, none, some "Mars/Olympus"⟩).jobs
      = [⟨"daily_poll_g", ⟨8, 0, "Europe/Sofia"⟩⟩] :=
  ⟨rfl,
    (schedule_invalid_tz_keeps_prior [⟨"daily_poll_g", ⟨8, 0, "Europe/Sofia"⟩⟩]
      "g" ⟨none, none, some "Mars/Olympus"⟩
      "UnknownTimeZoneError: Mars/Olympus" rfl).1⟩

/-! ### Poll publishing (src/bot/scheduler.py `post_daily_poll` /
`post_test_poll`, src/database/database_manager.py `create_poll`)

The Discord channel is a collaborator; the outcome of `channel.send` and of
the old-poll `fetch_message`/`delete` are oracles supplied in a
`PublishEnv`.  Both publish bodies run inside `try/except`: only the shapes
of the handlers differ between the two paths. -/

/-- Stable insertion into a list sorted by `created_at` descending. -/
def insertDescByCreated (p : PollRow) : List PollRow → List PollRow
  | [] => [p]
  | q :: qs =>
    if q.created_at < p.created_at then p :: q :: qs
    else q :: insertDescByCreated p qs

/-- `order_by(Poll.created_at.desc())`. -/
def sortDescByCreated (l : List PollRow) : List PollRow :=
  l.foldr insertDescByCreated []

/-- `DatabaseManager.create_poll` (lines 195-234): requires the guild's
server row (raising `ValueError` otherwise), appends the new poll row, then
prunes the guild's polls beyond the newest 3 — `session.delete` on a poll
cascades to its votes. -/
def create_poll (guild_id channel_id message_id poll_date : String)
    (is_test : Bool) (now next_id : Nat) (db : DB) : Except String DB :=
  match db.servers.find? (fun s => s.guild_id = guild_id) with
  | none => .error ("Server " ++ guild_id ++ " not found in database")
  | some s =>
    let poll : PollRow :=
      ⟨next_id, s.id, guild_id, channel_id, message_id, poll_date, is_test, now⟩
    let polls1 := db.polls ++ [poll]
    let old_polls :=
      (sortDescByCreated
        (polls1.filter (fun p => p.server_config_id = s.id))).drop 3
    let polls2 := polls1.filter (fun p => old_polls.all (fun q => q.id ≠ p.id))
    let votes2 :=
      db.votes.filter (fun v => old_polls.all (fun q => q.id ≠ v.poll_id))
    .ok { db with polls := polls2, votes := votes2 }

/-- Outcome of `channel.send(embed=embed)`. -/
inductive SendResult where
  | ok (message_id : Nat)
  | forbidden
  | err (msg : String)
deriving Repr, DecidableEq

/-- Outcome of `channel.fetch_message(old_id)` + `delete()`. -/
inductive DeleteOutcome where
  | ok
  | notFound
  | httpError
deriving Repr, DecidableEq

/-- The channel collaborator's behaviour during one publish. -/
structure PublishEnv where
  send : SendResult
  delete : Nat → DeleteOutcome
  now : Nat
  next_poll_id : Nat

/-- Result of one `post_daily_poll` call: the in-memory `poll_history`
list afterwards, the store, the message ids whose deletion was attempted,
the exception escaping to the caller, and whether `save_configs` ran. -/
structure DailyResult where
  history : List Nat
  db : DB
  deleted : List Nat
  raised : Option String
  configSaved : Bool
deriving Repr

/-- `PollScheduler.post_daily_poll` (lines 111-251), embedded from the
retention step onward (the guild, config and channel having resolved, with
`history = config['poll_history']`).  Retention (lines 189-204): with 2 or
more stored handles, fetch-and-delete the oldest — `NotFound` and
`HTTPException` are both caught and only logged — then `pop(0)`
unconditionally.  Then `channel.send`; then the new handle is appended and
the config saved; then `create_poll`.  `except discord.Forbidden` and
`except Exception` both end the call with only a log line: nothing is
re-raised. -/
def post_daily_poll (env : PublishEnv) (guild_id channel_id : String)
    (history : List Nat) (formatted_date : String) (db : DB) : DailyResult :=
  let step :=
    if 2 ≤ history.length then
      match history with
      | [] => (([] : List Nat), history)
      | oldest :: rest =>
        match env.delete oldest with
        | .ok => ([oldest], rest)
        | .notFound => ([oldest], rest)
        | .httpError => ([oldest], rest)
    else ([], history)
  match env.send with
  | .forbidden => ⟨step.2, db, step.1, none, false⟩
  | .err _ => ⟨step.2, db, step.1, none, false⟩
  | .ok mid =>
    match create_poll guild_id channel_id (toString mid) formatted_date
        false env.now env.next_poll_id db with
    | .error _ => ⟨step.2 ++ [mid], db, step.1, none, true⟩
    | .ok db2 => ⟨step.2 ++ [mid], db2, step.1, none, true⟩

/-- `PollScheduler.post_test_poll` (lines 253-345): no retention and no
history bookkeeping; its single `except Exception` handler logs **and
re-raises**. -/
def post_test_poll (env : PublishEnv) (guild_id channel_id : String)
    (formatted_date : String) (db : DB) : DB × Option String :=
  match env.send with
  | .forbidden => (db, some "Forbidden")
  | .err m => (db, some m)
  | .ok mid =>
    match create_poll guild_id channel_id (toString mid) formatted_date
        true env.now env.next_poll_id db with
    | .error m => (db, some m)
    | .ok db2 => (db2, none)

/-- C3: a successful non-test publish over a history holding at least two
handles attempts the delete of exactly the oldest handle (whatever the
delete outcome — not-found and other delivery errors are swallowed),
removes exactly that entry, and appends the new handle; a history of
length 2 beforehand has length exactly 2 afterwards. -/
theorem post_daily_retention (env : PublishEnv) (guild_id channel_id : String)
    (history : List Nat) (formatted_date : String) (db : DB) (mid : Nat)
    (hlen : 2 ≤ history.length) (hsend : env.send = .ok mid) :
    (post_daily_poll env guild_id channel_id history formatted_date db).deleted
      = history.take 1 ∧
    (post_daily_poll env guild_id channel_id history formatted_date db).history
      = history.drop 1 ++ [mid] ∧
    (history.length = 2 →
      (post_daily_poll env guild_id channel_id history formatted_date
        db).history.length = 2) := by
  obtain ⟨oldest, rest, rfl⟩ : ∃ a l, history = a :: l := by
    cases history with
    | nil => simp at hlen
    | cons a l => exact ⟨a, l, rfl⟩
  have key :
      (post_daily_poll env guild_id channel_id (oldest :: rest)
        formatted_date db).deleted = [oldest] ∧
      (post_daily_poll env guild_id channel_id (oldest :: rest)
        formatted_date db).history = rest ++ [mid] := by
    simp only [post_daily_poll, hsend, if_pos hlen]
    cases env.delete oldest <;>
      cases create_poll guild_id channel_id (toString mid) formatted_date
        false env.now env.next_poll_id db <;>
      exact ⟨rfl, rfl⟩
  refine ⟨key.1, key.2, fun h2 => ?_⟩
  rw [key.2]
  simp only [List.length_cons] at h2
  simp only [List.length_append, List.length_cons, List.length_nil]
  omega

/-- Witness for C3: two stored handles, a failing (http-error) delete of
the oldest, a successful send — the history afterwards is exactly the
newer old handle plus the new one. -/
theorem post_daily_retention_witness :
    (⟨SendResult.ok 30, fun _ => DeleteOutcome.httpError, 5, 1⟩ :
        PublishEnv).send = .ok 30 ∧
    (post_daily_poll ⟨.ok 30, fun _ => .httpError, 5, 1⟩ "g" "c" [10, 20]
        "d" ⟨[], [], [], []⟩).deleted = [10] ∧
    (post_daily_poll ⟨.ok 30, fun _ => .httpError, 5, 1⟩ "g" "c" [10, 20]
        "d" ⟨[], [], [], []⟩).history = [20, 30] :=
  ⟨rfl,
    (post_daily_retention ⟨.ok 30, fun _ => .httpError, 5, 1⟩ "g" "c"
      [10, 20] "d" ⟨[], [], [], []⟩ 30 (by decide) rfl).1,
    (post_daily_retention ⟨.ok 30, fun _ => .httpError, 5, 1⟩ "g" "c"
      [10, 20] "d" ⟨[], [], [], []⟩ 30 (by decide) rfl).2.1⟩

/-- Counterexample to C6: a non-permission exception during the daily
publish (the send failing with a generic error) is **not** propagated to
the caller — `post_daily_poll` swallows it — while the same failure on the
test path is re-raised. -/
theorem post_daily_error_swallowed :
    (post_daily_poll ⟨.err "database connection lost", fun _ => .ok, 5, 1⟩
        "g" "c" [] "d" ⟨[], [], [], []⟩).raised = none ∧
    (post_test_poll ⟨.err "database connection lost", fun _ => .ok, 5, 1⟩
        "g" "c" "d" ⟨[], [], [], []⟩).2 = some "database connection lost" :=
  ⟨rfl, rfl⟩

/-- C6 as amended: permission-denied on send abandons the publish with no
partial Poll persisted on both paths (the store is untouched and, on the
daily path, the config is not saved); any other send exception also leaves
the store untouched, but it is logged and propagated only by
`post_test_poll`, while `post_daily_poll` logs and swallows every
exception. -/
theorem publish_failure_semantics (env : PublishEnv)
    (guild_id channel_id : String) (history : List Nat)
    (formatted_date : String) (db : DB) :
    (env.send = .forbidden →
      (post_daily_poll env guild_id channel_id history formatted_date db).db
          = db ∧
      (post_daily_poll env guild_id channel_id history formatted_date
          db).raised = none ∧
      (post_daily_poll env guild_id channel_id history formatted_date
          db).configSaved = false ∧
      post_test_poll env guild_id channel_id formatted_date db
          = (db, some "Forbidden")) ∧
    (∀ m, env.send = .err m →
      (post_daily_poll env guild_id channel_id history formatted_date db).db
          = db ∧
      (post_daily_poll env guild_id channel_id history formatted_date
          db).raised = none ∧
      post_test_poll env guild_id channel_id formatted_date db
          = (db, some m)) := by
  constructor
  · intro hsend
    simp only [post_daily_poll, post_test_poll, hsend]
    refine ⟨?_, ?_, ?_, ?_⟩ <;> trivial
  · intro m hsend
    simp only [post_daily_poll, post_test_poll, hsend]
    refine ⟨?_, ?_, ?_⟩ <;> trivial

/-- Witness for the amended C6 on a concrete permission-denied publish. -/
theorem publish_failure_semantics_witness :
    (⟨SendResult.forbidden, fun _ => DeleteOutcome.ok, 5, 1⟩ :
        PublishEnv).send = .forbidden ∧
    (post_daily_poll ⟨.forbidden, fun _ => .ok, 5, 1⟩ "g" "c" [10] "d"
        ⟨[], [], [], []⟩).db = ⟨[], [], [], []⟩ ∧
    post_test_poll ⟨.forbidden, fun _ => .ok, 5, 1⟩ "g" "c" "d"
        ⟨[], [], [], []⟩ = (⟨[], [], [], []⟩, some "Forbidden") :=
  ⟨rfl,
    ((publish_failure_semantics ⟨.forbidden, fun _ => .ok, 5, 1⟩ "g" "c"
      [10] "d" ⟨[], [], [], []⟩).1 rfl).1,
    ((publish_failure_semantics ⟨.forbidden, fun _ => .ok, 5, 1⟩ "g" "c"
      [10] "d" ⟨[], [], [], []⟩).1 rfl).2.2.2⟩

/-! ### `save_server_config` (src/database/database_manager.py lines
146-193)

The caller passes a Python dict; `.get`-style optional keys become
`Option` fields.  When `poll_options` is present the server's option rows
are deleted and rebuilt: texts truncated to 7, emoji taken positionally
from `poll_emojis` (default palette when absent) with the `"❓"` filler
beyond its length. -/

/-- The config dict accepted by `save_server_config`. -/
structure ServerCfgDict where
  enabled : Option Bool
  channel_id : Option String
  poll_hour : Option Nat
  poll_minute : Option Nat
  timezone : Option String
  poll_options : Option (List String)
  poll_emojis : Option (List String)
deriving Repr, DecidableEq

/-- The default emoji palette of `save_server_config` (line 174). -/
def default_emojis : List String :=
  ["✅", "🌅", "☀️", "🌙", "🌃", "🤔", "❌"]

/-- The rebuilt option rows: `for i, option_text in
enumerate(poll_options[:7])` with `emojis[i] if i < len(emojis) else "❓"`. -/
def buildOptionRows (sid : Nat) (texts emojis : List String) :
    List OptionRow :=
  (texts.take 7).enum.map (fun it => ⟨sid, emojis.getD it.1 "❓", it.2, it.1⟩)

/-- `DatabaseManager.save_server_config`: get or create the server row,
overwrite its scalar settings, and if `poll_options` is present replace the
server's option rows by the rebuilt list. -/
def save_server_config (guild_id : String) (config : ServerCfgDict)
    (now next_server_id : Nat) (db : DB) : DB :=
  let found := db.servers.find? (fun s => s.guild_id = guild_id)
  let server : ServerRow :=
    match found with
    | some s => s
    | none => ⟨next_server_id, guild_id, false, none, 5, 0, "UTC", now⟩
  let db1 : DB :=
    match found with
    | some _ => db
    | none => { db with servers := db.servers ++ [server] }
  let server1 : ServerRow := { server with
    enabled := config.enabled.getD false
    channel_id := config.channel_id
    poll_hour := config.poll_hour.getD 5
    poll_minute := config.poll_minute.getD 0
    timezone := config.timezone.getD "UTC"
    updated_at := now }
  let db2 : DB := { db1 with
    servers := db1.servers.map (fun t => if t.id = server.id then server1 else t) }
  match config.poll_options with
  | none => db2
  | some texts =>
    let emojis := config.poll_emojis.getD default_emojis
    { db2 with options :=
        db2.options.filter (fun o => o.server_config_id ≠ server.id)
          ++ buildOptionRows server.id texts emojis }

/-- The id `save_server_config` targets: the existing server row's id, or
the id given to a freshly created row. -/
def targetServerId (guild_id : String) (next_server_id : Nat) (db : DB) : Nat :=
  match db.servers.find? (fun s => s.guild_id = guild_id) with
  | some s => s.id
  | none => next_server_id

/-- Counterexample to C9: `save_server_config` enforces no emoji
distinctness — saving two options with an empty `poll_emojis` list stores
the `"❓"` filler twice, so the stored emojis are not pairwise distinct. -/
theorem save_server_config_duplicate_emojis :
    ¬ (((save_server_config "g"
          ⟨none, none, none, none, none, some ["Opt A", "Opt B"], some []⟩
          0 1 ⟨[], [], [], []⟩).options.map (fun o => o.emoji)).Nodup) := by
  decide

theorem buildOptionRows_emojis (sid : Nat) (texts emojis : List String) :
    (buildOptionRows sid texts emojis).map (fun o => o.emoji)
      = (List.range (texts.take 7).length).map
          (fun i => emojis.getD i "❓") := by
  rw [buildOptionRows, List.map_map, ← List.enum_map_fst (texts.take 7),
    List.map_map]
  rfl

/-- C9 as amended: after any `save_server_config` with `poll_options`
present, the stored option list for the targeted server has length
`min (length texts) 7 ≤ 7` (at most the 7-slot palette); the emojis stored
with it are pairwise distinct whenever the supplied emoji list (or the
default palette when absent) is duplicate-free and covers the truncated
option list — but not in general, as the counterexample shows. -/
theorem save_server_config_options_bounded (guild_id : String)
    (config : ServerCfgDict) (now next_server_id : Nat) (db : DB)
    (texts : List String) (hopts : config.poll_options = some texts) :
    ((save_server_config guild_id config now next_server_id db).options.filter
        (fun o => o.server_config_id = targetServerId guild_id next_server_id db))
      = buildOptionRows (targetServerId guild_id next_server_id db) texts
          (config.poll_emojis.getD default_emojis) ∧
    ((save_server_config guild_id config now next_server_id db).options.filter
        (fun o => o.server_config_id
          = targetServerId guild_id next_server_id db)).length ≤ 7 ∧
    ((config.poll_emojis.getD default_emojis).Nodup →
      (texts.take 7).length ≤ (config.poll_emojis.getD default_emojis).length →
      (((save_server_config guild_id config now next_server_id db).options.filter
          (fun o => o.server_config_id
            = targetServerId guild_id next_server_id db)).map
        (fun o => o.emoji)).Nodup) := by
  have hoptions :
      (save_server_config guild_id config now next_server_id db).options
        = db.options.filter
            (fun o => o.server_config_id
              ≠ targetServerId guild_id next_server_id db)
          ++ buildOptionRows (targetServerId guild_id next_server_id db)
              texts (config.poll_emojis.getD default_emojis) := by
    cases hfound : db.servers.find? (fun s => decide (s.guild_id = guild_id)) with
    | none =>
      simp only [save_server_config, targetServerId, hopts, hfound]
    | some s =>
      simp only [save_server_config, targetServerId, hopts, hfound]
  have hfilter :
      (save_server_config guild_id config now next_server_id db).options.filter
          (fun o => o.server_config_id
            = targetServerId guild_id next_server_id db)
        = buildOptionRows (targetServerId guild_id next_server_id db) texts
            (config.poll_emojis.getD default_emojis) := by
    rw [hoptions, List.filter_append]
    have h1 : (db.options.filter
        (fun o => o.server_config_id
          ≠ targetServerId guild_id next_server_id db)).filter
        (fun o => o.server_config_id
          = targetServerId guild_id next_server_id db) = [] := by
      rw [List.filter_filter, List.filter_eq_nil_iff]
      intro o _
      simp only [Bool.and_eq_true, decide_eq_true_eq, ne_eq]
      tauto
    have h2 : (buildOptionRows (targetServerId guild_id next_server_id db)
        texts (config.poll_emojis.getD default_emojis)).filter
        (fun o => o.server_config_id
          = targetServerId guild_id next_server_id db)
        = buildOptionRows (targetServerId guild_id next_server_id db) texts
            (config.poll_emojis.getD default_emojis) := by
      rw [List.filter_eq_self]
      intro o ho
      rw [buildOptionRows] at ho
      obtain ⟨it, _, rfl⟩ := List.mem_map.mp ho
      exact decide_eq_true rfl
    rw [h1, h2, List.nil_append]
  refine ⟨hfilter, ?_, fun hnodup hcover => ?_⟩
  · rw [hfilter, buildOptionRows, List.length_map, List.enum_length,
      List.length_take]
    exact min_le_left _ _
  · rw [hfilter, buildOptionRows_emojis]
    refine List.Nodup.map_on ?_ (List.nodup_range _)
    intro i hi j hj hij
    rw [List.mem_range] at hi hj
    have hi' : i < (config.poll_emojis.getD default_emojis).length :=
      lt_of_lt_of_le hi hcover
    have hj' : j < (config.poll_emojis.getD default_emojis).length :=
      lt_of_lt_of_le hj hcover
    rw [List.getD_eq_getElem _ _ hi', List.getD_eq_getElem _ _ hj'] at hij
    exact (List.Nodup.getElem_inj_iff hnodup).mp hij

/-- Witness for the amended C9: saving three options with the default
7-emoji palette stores three rows with pairwise distinct emojis. -/
theorem save_server_config_options_bounded_witness :
    ((none : Option (List String)).getD default_emojis).Nodup ∧
    ((save_server_config "g"
        ⟨some true, some "c", some 20, some 0, some "UTC",
          some ["A", "B", "C"], none⟩ 0 1 ⟨[], [], [], []⟩).options.map
      (fun o => o.emoji)).Nodup := by
  refine ⟨by decide, ?_⟩
  have h := (save_server_config_options_bounded "g"
    ⟨some true, some "c", some 20, some 0, some "UTC",
      some ["A", "B", "C"], none⟩ 0 1 ⟨[], [], [], []⟩
    ["A", "B", "C"] rfl).2.2 (by decide) (by decide)
  simpa using h

/-! ### Reaction events and vote reconciliation (src/main.py)

`on_reaction_add` and `on_reaction_remove` have identical bodies for a
tracked poll message: delete the actor's stored vote, then run the sync
loop of `update_poll_results`, which for every option emoji of the poll
snapshot enumerates the non-bot users currently holding that reaction live
on the message and upserts one vote per user.  The Discord message's live
reaction state becomes an explicit list of (user, emoji) pairs; the event
handler observes the state *after* the platform applied the reaction
change.  Bot users are outside the model: the palette reactions the bot
itself holds are excluded by the `user.bot` filters in the source. -/

/-- Live (user, emoji) reaction pairs on the poll message. -/
abbrev Live := List (String × String)

/-- A reaction event delivered to the bot. -/
inductive REvent where
  | add (user emoji : String)
  | remove (user emoji : String)
deriving Repr, DecidableEq

/-- The user who produced the event. -/
def actor : REvent → String
  | .add u _ => u
  | .remove u _ => u

/-- The platform applying a reaction change to the message's live state:
an add inserts the pair (a user holds one live reaction per emoji), a
remove deletes it. -/
def applyEvent (live : Live) : REvent → Live
  | .add u e => if (u, e) ∈ live then live else live ++ [(u, e)]
  | .remove u e => live.filter (fun p => p ≠ (u, e))

/-- `reaction.users()` for one emoji, bots excluded: the users holding
that reaction live. -/
def usersWith (live : Live) (e : String) : List String :=
  (live.filter (fun p => p.2 = e)).map (fun p => p.1)

/-- The database write-back loop of `update_poll_results` (src/main.py
lines 176-192): for each snapshot emoji in order, for each non-bot user
holding that reaction, `save_vote` the user's choice (`uname`/`dname`
giving each user's `user.name` / `display_name`). -/
def update_poll_results_sync (mid : String) (uname dname : String → String)
    (emojis : List String) (live : Live) (now : Nat) (db : DB) : DB :=
  emojis.foldl (fun db e =>
    (usersWith live e).foldl (fun db u =>
      save_vote mid u (uname u) (dname u) e now db) db) db

/-- `on_reaction_add` / `on_reaction_remove` (src/main.py lines 137-167)
for a tracked poll message: the platform state advances, the actor's
stored vote is removed, and the full re-scan runs against the new live
state. -/
def on_reaction_event (mid : String) (uname dname : String → String)
    (emojis : List String) (now : Nat) (st : Live × DB) (ev : REvent) :
    Live × DB :=
  let live := applyEvent st.1 ev
  (live, update_poll_results_sync mid uname dname emojis live now
    (remove_vote mid (actor ev) st.2))

/-- A whole event sequence processed against a freshly published tracked
poll: empty live state, poll row present, no votes. -/
def runEvents (P : PollRow) (uname dname : String → String)
    (emojis : List String) (now : Nat) (evs : List REvent) : Live × DB :=
  evs.foldl (on_reaction_event P.message_id uname dname emojis now)
    ([], ⟨[], [], [P], []⟩)

/-- Folding the palette over an accumulator choice: the last palette emoji
the user holds live wins, the accumulator surviving when none does. -/
def overlayChoice (es : List String) (live : Live) (u : String)
    (acc : Option String) : Option String :=
  es.foldl (fun a e => if u ∈ usersWith live e then some e else a) acc

/-- The user's net choice as the reconciliation loop resolves it: the last
palette emoji among the user's live reactions, none when the user holds no
live palette reaction. -/
def lastPaletteChoice (es : List String) (live : Live) (u : String) :
    Option String :=
  overlayChoice es live u none

/-- The emoji of the user's stored vote row, if any. -/
def storedEmoji (pid : Nat) (db : DB) (u : String) : Option String :=
  (findVote pid u db.votes).map (fun v => v.emoji)

theorem mem_usersWith (live : Live) (e u : String) :
    u ∈ usersWith live e ↔ (u, e) ∈ live := by
  rw [usersWith]
  constructor
  · intro h
    obtain ⟨p, hp, rfl⟩ := List.mem_map.mp h
    have hf := List.mem_filter.mp hp
    have h2 : p.2 = e := of_decide_eq_true hf.2
    have hpe : p = (p.1, e) := by
      rw [← h2]
    rw [← hpe]
    exact hf.1
  · intro h
    exact List.mem_map.mpr ⟨(u, e), List.mem_filter.mpr ⟨h, by simp⟩, rfl⟩

theorem applyEvent_mem_of_ne (live : Live) (ev : REvent) (u e : String)
    (hu : u ≠ actor ev) :
    ((u, e) ∈ applyEvent live ev) ↔ ((u, e) ∈ live) := by
  cases ev with
  | add a e' =>
    rw [applyEvent]
    by_cases hmem : (a, e') ∈ live
    · rw [if_pos hmem]
    · rw [if_neg hmem, List.mem_append]
      constructor
      · rintro (h | h)
        · exact h
        · rw [List.mem_singleton] at h
          cases h
          exact absurd rfl hu
      · exact Or.inl
  | remove a e' =>
    rw [applyEvent, List.mem_filter]
    constructor
    · exact fun h => h.1
    · intro h
      refine ⟨h, decide_eq_true fun hc => ?_⟩
      cases hc
      exact hu rfl

theorem overlayChoice_or (es : List String) (live : Live) (u : String) :
    ∀ acc, overlayChoice es live u acc
      = match overlayChoice es live u none with
        | some e => some e
        | none => acc := by
  induction es with
  | nil => intro acc; rfl
  | cons e0 rest ih =>
    intro acc
    show overlayChoice rest live u (if u ∈ usersWith live e0 then some e0 else acc)
      = _
    rw [ih]
    conv_rhs =>
      rw [show overlayChoice (e0 :: rest) live u none
        = overlayChoice rest live u
            (if u ∈ usersWith live e0 then some e0 else none) from rfl, ih]
    by_cases hm : u ∈ usersWith live e0 <;>
      cases overlayChoice rest live u none <;> simp [hm]

theorem overlayChoice_congr (es : List String) (live1 live2 : Live)
    (u : String) (h : ∀ e, (u ∈ usersWith live1 e) ↔ (u ∈ usersWith live2 e)) :
    ∀ acc, overlayChoice es live1 u acc = overlayChoice es live2 u acc := by
  induction es with
  | nil => intro acc; rfl
  | cons e0 rest ih =>
    intro acc
    show overlayChoice rest live1 u
        (if u ∈ usersWith live1 e0 then some e0 else acc)
      = overlayChoice rest live2 u
        (if u ∈ usersWith live2 e0 then some e0 else acc)
    rw [ih]
    congr 1
    by_cases hm : u ∈ usersWith live1 e0
    · rw [if_pos hm, if_pos ((h e0).mp hm)]
    · rw [if_neg hm, if_neg (fun hh => hm ((h e0).mpr hh))]

theorem overlayChoice_mem (es : List String) (live : Live) (u : String) :
    ∀ acc e, overlayChoice es live u acc = some e → e ∈ es ∨ acc = some e := by
  induction es with
  | nil => intro acc e h; exact Or.inr h
  | cons e0 rest ih =>
    intro acc e h
    rw [show overlayChoice (e0 :: rest) live u acc
      = overlayChoice rest live u
          (if u ∈ usersWith live e0 then some e0 else acc) from rfl] at h
    rcases ih _ e h with h1 | h1
    · exact Or.inl (List.mem_cons_of_mem _ h1)
    · by_cases hm : u ∈ usersWith live e0
      · rw [if_pos hm] at h1
        cases h1
        exact Or.inl (List.mem_cons_self ..)
      · rw [if_neg hm] at h1
        exact Or.inr h1

theorem overlayChoice_of_no_mem (es : List String) (live : Live) (u : String)
    (h : ∀ e ∈ es, u ∉ usersWith live e) :
    ∀ acc, overlayChoice es live u acc = acc := by
  induction es with
  | nil => intro acc; rfl
  | cons e0 rest ih =>
    intro acc
    show overlayChoice rest live u
        (if u ∈ usersWith live e0 then some e0 else acc) = acc
    rw [if_neg (h e0 (List.mem_cons_self ..)),
      ih (fun e he => h e (List.mem_cons_of_mem _ he))]

theorem overlayChoice_of_unique (es : List String) (live : Live)
    (u e : String) (hmem : u ∈ usersWith live e)
    (huniq : ∀ e', u ∈ usersWith live e' → e' = e) :
    ∀ acc, e ∈ es → overlayChoice es live u acc = some e := by
  induction es with
  | nil => intro acc h; cases h
  | cons e0 rest ih =>
    intro acc he
    show overlayChoice rest live u
        (if u ∈ usersWith live e0 then some e0 else acc) = some e
    by_cases hrest : e ∈ rest
    · exact ih _ hrest
    · have he0 : e0 = e := by
        rcases List.mem_cons.mp he with h | h
        · exact h.symm
        · exact absurd h hrest
      subst he0
      rw [if_pos hmem]
      exact overlayChoice_of_no_mem rest live u
        (fun e' he' hm => hrest (huniq e' hm ▸ he')) _

theorem lastPaletteChoice_nil_live (es : List String) (u : String) :
    lastPaletteChoice es [] u = none := by
  rw [lastPaletteChoice]
  exact overlayChoice_of_no_mem es [] u
    (fun e _ hm => by simp [usersWith] at hm) none

/-- The reconciliation invariant tying the vote store to a per-user choice
function: the tracked poll is the only poll row, every vote row belongs to
it and carries the voter's display name, voters are unique, and each
user's stored emoji is exactly `f u`. -/
structure ReconInv (P : PollRow) (dname : String → String)
    (f : String → Option String) (db : DB) : Prop where
  polls_eq : db.polls = [P]
  rows_pid : ∀ v ∈ db.votes, v.poll_id = P.id
  rows_dname : ∀ v ∈ db.votes, v.display_name = dname v.user_id
  keys : VoteKeysUnique db.votes
  stored : ∀ u, storedEmoji P.id db u = f u

theorem ReconInv.congr {P : PollRow} {dname : String → String}
    {f g : String → Option String} {db : DB} (h : ReconInv P dname f db)
    (hfg : ∀ u, f u = g u) : ReconInv P dname g db :=
  ⟨h.polls_eq, h.rows_pid, h.rows_dname, h.keys,
    fun u => (h.stored u).trans (hfg u)⟩

theorem findPoll_self (P : PollRow) (db : DB) (h : db.polls = [P]) :
    findPoll P.message_id db = some P := by
  rw [findPoll, h, List.find?_cons_of_pos _ (by simp)]

theorem updateFirstVote_mem (pid : Nat) (uid dname emoji : String)
    (now : Nat) (votes : List VoteRow) :
    ∀ b ∈ updateFirstVote pid uid dname emoji now votes,
      b ∈ votes ∨ ∃ v ∈ votes, v.poll_id = pid ∧ v.user_id = uid ∧
        b = { v with emoji := emoji, display_name := dname,
                     updated_at := now } := by
  induction votes with
  | nil => intro b hb; cases hb
  | cons v vs ih =>
    intro b hb
    by_cases hv : v.poll_id = pid ∧ v.user_id = uid
    · rw [updateFirstVote, if_pos hv] at hb
      rcases List.mem_cons.mp hb with rfl | h
      · exact Or.inr ⟨v, List.mem_cons_self .., hv.1, hv.2, rfl⟩
      · exact Or.inl (List.mem_cons_of_mem _ h)
    · rw [updateFirstVote, if_neg hv] at hb
      rcases List.mem_cons.mp hb with rfl | h
      · exact Or.inl (List.mem_cons_self ..)
      · rcases ih b h with h1 | ⟨w, hw, h1, h2, h3⟩
        · exact Or.inl (List.mem_cons_of_mem _ h1)
        · exact Or.inr ⟨w, List.mem_cons_of_mem _ hw, h1, h2, h3⟩

theorem voteKeysUnique_append_of_findVote_none (votes : List VoteRow)
    (w : VoteRow) (hf : findVote w.poll_id w.user_id votes = none)
    (h : VoteKeysUnique votes) : VoteKeysUnique (votes ++ [w]) := by
  rw [VoteKeysUnique, List.pairwise_append]
  refine ⟨h, List.pairwise_singleton .., fun a ha b hb => ?_⟩
  rw [List.mem_singleton] at hb
  subst hb
  rw [findVote, List.find?_eq_none] at hf
  have := hf a ha
  simp only [decide_eq_true_eq] at this
  by_cases h1 : a.poll_id = b.poll_id
  · exact Or.inr fun h2 => this ⟨h1, h2⟩
  · exact Or.inl h1

theorem findVote_append_single (pid : Nat) (uid : String)
    (votes : List VoteRow) (w : VoteRow) :
    findVote pid uid (votes ++ [w])
      = (findVote pid uid votes).or (findVote pid uid [w]) := by
  rw [findVote, List.find?_append]
  rfl

/-- `save_vote` on a store satisfying the invariant updates exactly the
actor's entry of the choice function. -/
theorem reconInv_save_vote (P : PollRow) (uname dname : String → String)
    (f : String → Option String) (db : DB) (u e : String) (now : Nat)
    (h : ReconInv P dname f db) :
    ReconInv P dname (fun w => if w = u then some e else f w)
      (save_vote P.message_id u (uname u) (dname u) e now db) := by
  have hfp : findPoll P.message_id db = some P := findPoll_self P db h.polls_eq
  cases hfv : findVote P.id u db.votes with
  | some v =>
    have hs : save_vote P.message_id u (uname u) (dname u) e now db
        = { db with votes := updateFirstVote P.id u (dname u) e now db.votes } := by
      simp only [save_vote, hfp, hfv]
    rw [hs]
    refine ⟨h.polls_eq, ?_, ?_, voteKeysUnique_updateFirstVote _ _ _ _ _ _ h.keys,
      ?_⟩
    · intro b hb
      rcases updateFirstVote_mem P.id u (dname u) e now db.votes b hb with
        h1 | ⟨w, hw, h1, _, rfl⟩
      · exact h.rows_pid b h1
      · exact h1
    · intro b hb
      rcases updateFirstVote_mem P.id u (dname u) e now db.votes b hb with
        h1 | ⟨w, hw, _, h2, rfl⟩
      · exact h.rows_dname b h1
      · show dname u = dname w.user_id
        rw [h2]
    · intro w
      by_cases hw : w = u
      · subst hw
        rw [if_pos rfl, storedEmoji,
          findVote_updateFirstVote_self P.id w (dname w) e now db.votes v hfv]
        rfl
      · rw [if_neg hw, storedEmoji, findVote_updateFirstVote_other P.id u
          (dname u) e now db.votes P.id w (fun hc => hw hc.2), ← storedEmoji,
          h.stored]
  | none =>
    have hs : save_vote P.message_id u (uname u) (dname u) e now db
        = { db with votes := db.votes ++ [⟨P.id, u, uname u, dname u, e, now⟩] } := by
      simp only [save_vote, hfp, hfv]
    rw [hs]
    refine ⟨h.polls_eq, ?_, ?_, ?_, ?_⟩
    · intro b hb
      rcases List.mem_append.mp hb with h1 | h1
      · exact h.rows_pid b h1
      · rw [List.mem_singleton] at h1
        subst h1
        rfl
    · intro b hb
      rcases List.mem_append.mp hb with h1 | h1
      · exact h.rows_dname b h1
      · rw [List.mem_singleton] at h1
        subst h1
        rfl
    · exact voteKeysUnique_append_of_findVote_none db.votes _ hfv h.keys
    · intro w
      by_cases hw : w = u
      · subst hw
        rw [if_pos rfl, storedEmoji, findVote_append_single, hfv, Option.none_or,
          findVote, List.find?_cons_of_pos _ (by simp)]
        rfl
      · rw [if_neg hw, storedEmoji, findVote_append_single]
        have hnone : findVote P.id w [⟨P.id, u, uname u, dname u, e, now⟩]
            = none := by
          have hne : ¬ (P.id = P.id ∧ u = w) := fun hc => hw hc.2.symm
          rw [findVote, List.find?_cons_of_neg _ (by simpa using hne),
            List.find?_nil]
        rw [hnone, Option.or_none, ← storedEmoji, h.stored]

/-- `remove_vote` on a store satisfying the invariant clears exactly the
actor's entry of the choice function. -/
theorem reconInv_remove_vote (P : PollRow) (dname : String → String)
    (f : String → Option String) (db : DB) (u : String)
    (h : ReconInv P dname f db) :
    ReconInv P dname (fun w => if w = u then none else f w)
      (remove_vote P.message_id u db) := by
  have hfp : findPoll P.message_id db = some P := findPoll_self P db h.polls_eq
  cases hfv : findVote P.id u db.votes with
  | none =>
    have hs : remove_vote P.message_id u db = db := by
      simp only [remove_vote, hfp, hfv]
    rw [hs]
    refine h.congr fun w => ?_
    by_cases hw : w = u
    · subst hw
      rw [if_pos rfl, ← h.stored w, storedEmoji, hfv]
      rfl
    · rw [if_neg hw]
  | some v =>
    have hs : remove_vote P.message_id u db
        = { db with votes := removeFirstVote P.id u db.votes } := by
      simp only [remove_vote, hfp, hfv]
    rw [hs]
    refine ⟨h.polls_eq, ?_, ?_, voteKeysUnique_removeFirstVote _ _ _ h.keys, ?_⟩
    · intro b hb
      exact h.rows_pid b ((removeFirstVote_sublist P.id u db.votes).mem hb)
    · intro b hb
      exact h.rows_dname b ((removeFirstVote_sublist P.id u db.votes).mem hb)
    · intro w
      by_cases hw : w = u
      · subst hw
        rw [if_pos rfl, storedEmoji,
          findVote_removeFirstVote_self P.id w db.votes h.keys]
        rfl
      · rw [if_neg hw, storedEmoji, findVote_removeFirstVote_other P.id u
          db.votes P.id w (fun hc => hw hc.2), ← storedEmoji, h.stored]

/-- The inner loop of the re-scan: saving one emoji for a whole user list
overwrites exactly those users' choices. -/
theorem reconInv_userFold (P : PollRow) (uname dname : String → String)
    (e : String) (now : Nat) (us : List String) :
    ∀ (f : String → Option String) (db : DB), ReconInv P dname f db →
      ReconInv P dname (fun w => if w ∈ us then some e else f w)
        (us.foldl (fun db u =>
          save_vote P.message_id u (uname u) (dname u) e now db) db) := by
  induction us with
  | nil =>
    intro f db h
    exact h.congr fun w => by simp
  | cons u0 rest ih =>
    intro f db h
    have h1 := reconInv_save_vote P uname dname f db u0 e now h
    have h2 := ih _ _ h1
    refine h2.congr fun w => ?_
    by_cases hr : w ∈ rest
    · rw [if_pos hr, if_pos (List.mem_cons_of_mem _ hr)]
    · rw [if_neg hr]
      by_cases h0 : w = u0
      · rw [if_pos h0, if_pos (List.mem_cons.mpr (Or.inl h0))]
      · rw [if_neg h0, if_neg (fun hc => by
          rcases List.mem_cons.mp hc with hc | hc
          · exact h0 hc
          · exact hr hc)]

/-- The whole re-scan loop of `update_poll_results`: every user's choice
ends up overlaid by the last live palette emoji they hold. -/
theorem reconInv_update_poll_results_sync (P : PollRow)
    (uname dname : String → String) (now : Nat) (live : Live)
    (es : List String) :
    ∀ (f : String → Option String) (db : DB), ReconInv P dname f db →
      ReconInv P dname (fun u => overlayChoice es live u (f u))
        (update_poll_results_sync P.message_id uname dname es live now db) := by
  induction es with
  | nil =>
    intro f db h
    exact h.congr fun u => rfl
  | cons e0 rest ih =>
    intro f db h
    have h1 := reconInv_userFold P uname dname e0 now (usersWith live e0) f db h
    have h2 := ih _ _ h1
    exact h2.congr fun u => rfl

/-- Master invariant: after any event sequence on a freshly tracked poll,
the store realises exactly the per-user last-live-palette-choice function
of the final live reaction state. -/
theorem runEvents_reconInv (P : PollRow) (uname dname : String → String)
    (emojis : List String) (now : Nat) (evs : List REvent) :
    ReconInv P dname
      (fun u => lastPaletteChoice emojis
        (runEvents P uname dname emojis now evs).1 u)
      (runEvents P uname dname emojis now evs).2 := by
  have step : ∀ (st : Live × DB) (ev : REvent),
      ReconInv P dname (fun u => lastPaletteChoice emojis st.1 u) st.2 →
      ReconInv P dname
        (fun u => lastPaletteChoice emojis
          (on_reaction_event P.message_id uname dname emojis now st ev).1 u)
        (on_reaction_event P.message_id uname dname emojis now st ev).2 := by
    intro st ev h
    have h1 := reconInv_remove_vote P dname _ st.2 (actor ev) h
    have h2 := reconInv_update_poll_results_sync P uname dname now
      (applyEvent st.1 ev) emojis _ _ h1
    refine h2.congr fun u => ?_
    show overlayChoice emojis (applyEvent st.1 ev) u
        (if u = actor ev then none else lastPaletteChoice emojis st.1 u)
      = lastPaletteChoice emojis (applyEvent st.1 ev) u
    by_cases hu : u = actor ev
    · rw [if_pos hu]
      rfl
    · rw [if_neg hu]
      have hmemiff : ∀ e, (u ∈ usersWith st.1 e)
          ↔ (u ∈ usersWith (applyEvent st.1 ev) e) := by
        intro e
        rw [mem_usersWith, mem_usersWith]
        exact (applyEvent_mem_of_ne st.1 ev u e hu).symm
      have hacc : lastPaletteChoice emojis st.1 u
          = lastPaletteChoice emojis (applyEvent st.1 ev) u := by
        rw [lastPaletteChoice, lastPaletteChoice,
          overlayChoice_congr emojis st.1 (applyEvent st.1 ev) u hmemiff]
      rw [hacc, overlayChoice_or, lastPaletteChoice]
      cases overlayChoice emojis (applyEvent st.1 ev) u none with
      | none => rfl
      | some e => rfl
  have main : ∀ (l : List REvent) (st : Live × DB),
      ReconInv P dname (fun u => lastPaletteChoice emojis st.1 u) st.2 →
      ReconInv P dname
        (fun u => lastPaletteChoice emojis
          (l.foldl (on_reaction_event P.message_id uname dname emojis now)
            st).1 u)
        (l.foldl (on_reaction_event P.message_id uname dname emojis now)
          st).2 := by
    intro l
    induction l with
    | nil => intro st h; exact h
    | cons ev rest ih => intro st h; exact ih _ (step st ev h)
  have base : ReconInv P dname
      (fun u => lastPaletteChoice emojis ([] : Live) u)
      (⟨[], [], [P], []⟩ : DB) := by
    refine ⟨rfl, ?_, ?_, List.Pairwise.nil, ?_⟩
    · intro v hv; cases hv
    · intro v hv; cases hv
    · intro u
      rw [lastPaletteChoice_nil_live]
      rfl
  exact main evs ([], ⟨[], [], [P], []⟩) base

theorem findVote_eq_self_of_mem (P : PollRow) (votes : List VoteRow)
    (hpid : ∀ v ∈ votes, v.poll_id = P.id) (hkeys : VoteKeysUnique votes) :
    ∀ v ∈ votes, findVote P.id v.user_id votes = some v := by
  induction votes with
  | nil => intro v hv; cases hv
  | cons w ws ih =>
    intro v hv
    rcases List.pairwise_cons.mp hkeys with ⟨hw, hws⟩
    rcases List.mem_cons.mp hv with rfl | hv'
    · have hp : v.poll_id = P.id ∧ v.user_id = v.user_id :=
        ⟨hpid v (List.mem_cons_self ..), rfl⟩
      rw [findVote, List.find?_cons_of_pos _ (by simpa using hp)]
    · have hne : ¬ (w.poll_id = P.id ∧ w.user_id = v.user_id) := by
        rintro ⟨h1, h2⟩
        rcases hw v hv' with h3 | h3
        · exact h3 (h1.trans (hpid v (List.mem_cons_of_mem _ hv')).symm)
        · exact h3 h2
      rw [findVote, List.find?_cons_of_neg _ (by simpa using hne)]
      exact ih (fun x hx => hpid x (List.mem_cons_of_mem _ hx)) hws v hv'

/-- Membership in the grouped tally: some bucket carries the emoji and
contains the display name. -/
def groupHas (gs : List (String × List String)) (e n : String) : Prop :=
  ∃ p ∈ gs, p.1 = e ∧ n ∈ p.2

instance (gs : List (String × List String)) (e n : String) :
    Decidable (groupHas gs e n) := by
  unfold groupHas
  infer_instance

theorem groupHas_nil (e n : String) : ¬ groupHas [] e n := by
  rintro ⟨p, hp, -⟩
  cases hp

theorem groupHas_cons (a : String × List String)
    (rest : List (String × List String)) (e n : String) :
    groupHas (a :: rest) e n ↔ (a.1 = e ∧ n ∈ a.2) ∨ groupHas rest e n := by
  constructor
  · rintro ⟨p, hp, h1, h2⟩
    rcases List.mem_cons.mp hp with rfl | hp'
    · exact Or.inl ⟨h1, h2⟩
    · exact Or.inr ⟨p, hp', h1, h2⟩
  · rintro (⟨h1, h2⟩ | ⟨p, hp, h1, h2⟩)
    · exact ⟨a, List.mem_cons_self .., h1, h2⟩
    · exact ⟨p, List.mem_cons_of_mem _ hp, h1, h2⟩

theorem groupHas_groupInsert (gs : List (String × List String))
    (e' n' e n : String) :
    groupHas (groupInsert gs e' n') e n
      ↔ groupHas gs e n ∨ (e' = e ∧ n' = n) := by
  induction gs with
  | nil =>
    constructor
    · rintro ⟨p, hp, h1, h2⟩
      rcases List.mem_singleton.mp hp with rfl
      rw [List.mem_singleton] at h2
      exact Or.inr ⟨h1, h2.symm⟩
    · rintro (h | ⟨h1, h2⟩)
      · exact absurd h (groupHas_nil e n)
      · exact ⟨(e', [n']), List.mem_singleton.mpr rfl, h1, by simp [h2]⟩
  | cons g rest ih =>
    obtain ⟨ge, gns⟩ := g
    by_cases hg : ge = e'
    · subst hg
      rw [show groupInsert ((ge, gns) :: rest) ge n' = (ge, gns ++ [n']) :: rest
        from by rw [groupInsert, if_pos rfl]]
      rw [groupHas_cons, groupHas_cons]
      simp only [List.mem_append, List.mem_singleton]
      constructor
      · rintro (⟨h1, h2 | h2⟩ | h)
        · exact Or.inl (Or.inl ⟨h1, h2⟩)
        · exact Or.inr ⟨h1, h2.symm⟩
        · exact Or.inl (Or.inr h)
      · rintro ((⟨h1, h2⟩ | h) | ⟨h1, h2⟩)
        · exact Or.inl ⟨h1, Or.inl h2⟩
        · exact Or.inr h
        · exact Or.inl ⟨h1, Or.inr h2.symm⟩
    · rw [show groupInsert ((ge, gns) :: rest) e' n'
        = (ge, gns) :: groupInsert rest e' n' from by rw [groupInsert, if_neg hg]]
      rw [groupHas_cons, groupHas_cons, ih, or_assoc]

theorem groupHas_foldl (rows : List VoteRow) :
    ∀ (acc : List (String × List String)) (e n : String),
      groupHas (rows.foldl
          (fun acc v => groupInsert acc v.emoji v.display_name) acc) e n
        ↔ groupHas acc e n ∨ ∃ v ∈ rows, v.emoji = e ∧ v.display_name = n := by
  induction rows with
  | nil =>
    intro acc e n
    simp
  | cons w ws ih =>
    intro acc e n
    rw [List.foldl_cons, ih, groupHas_groupInsert]
    constructor
    · rintro ((h | ⟨h1, h2⟩) | ⟨v, hv, h1, h2⟩)
      · exact Or.inl h
      · exact Or.inr ⟨w, List.mem_cons_self .., h1, h2⟩
      · exact Or.inr ⟨v, List.mem_cons_of_mem _ hv, h1, h2⟩
    · rintro (h | ⟨v, hv, h1, h2⟩)
      · exact Or.inl (Or.inl h)
      · rcases List.mem_cons.mp hv with rfl | hv'
        · exact Or.inl (Or.inr ⟨h1, h2⟩)
        · exact Or.inr ⟨v, hv', h1, h2⟩

/-- Under the reconciliation invariant, the grouped tally contains exactly
the display names of the users whose choice function hits the emoji. -/
theorem groupHas_get_poll_votes (P : PollRow) (dname : String → String)
    (f : String → Option String) (db : DB) (h : ReconInv P dname f db)
    (e n : String) :
    groupHas (get_poll_votes P.message_id db) e n
      ↔ ∃ u, f u = some e ∧ dname u = n := by
  have hfp := findPoll_self P db h.polls_eq
  have hfil : db.votes.filter (fun v => v.poll_id = P.id) = db.votes :=
    List.filter_eq_self.mpr fun v hv => by simpa using h.rows_pid v hv
  have hgv : get_poll_votes P.message_id db
      = db.votes.foldl
          (fun acc v => groupInsert acc v.emoji v.display_name) [] := by
    simp only [get_poll_votes, hfp, hfil]
  rw [hgv, groupHas_foldl]
  constructor
  · rintro (h0 | ⟨v, hv, h1, h2⟩)
    · exact absurd h0 (groupHas_nil e n)
    · refine ⟨v.user_id, ?_, ?_⟩
      · rw [← h.stored v.user_id, storedEmoji,
          findVote_eq_self_of_mem P db.votes h.rows_pid h.keys v hv,
          Option.map_some']
        rw [h1]
      · rw [← (h.rows_dname v hv), h2]
  · rintro ⟨u, h1, h2⟩
    rw [← h.stored u, storedEmoji] at h1
    cases hfv : findVote P.id u db.votes with
    | none =>
      rw [hfv] at h1
      cases h1
    | some v =>
      rw [hfv, Option.map_some'] at h1
      have hmem : v ∈ db.votes := List.mem_of_find?_eq_some hfv
      have hkey : v.poll_id = P.id ∧ v.user_id = u := by
        simpa using List.find?_some hfv
      refine Or.inr ⟨v, hmem, ?_, ?_⟩
      · injection h1
      · rw [h.rows_dname v hmem, hkey.2, h2]

/-- C1: after any event sequence from non-bot users on a tracked poll, each
user's stored emoji is exactly the last snapshot emoji among their live
reactions (in particular their unique live choice when they hold a single
reaction), the tally grouped by emoji contains exactly those users'
display names, and the tally is invariant under any change of the event
sequence that preserves each user's final live reaction state. -/
theorem reaction_tally_converges (P : PollRow) (uname dname : String → String)
    (emojis : List String) (now : Nat) (evs evs2 : List REvent)
    (hsame : ∀ u e, ((u, e) ∈ (runEvents P uname dname emojis now evs).1)
      ↔ ((u, e) ∈ (runEvents P uname dname emojis now evs2).1)) :
    (∀ u, storedEmoji P.id (runEvents P uname dname emojis now evs).2 u
        = lastPaletteChoice emojis
            (runEvents P uname dname emojis now evs).1 u) ∧
    (∀ u e, (u, e) ∈ (runEvents P uname dname emojis now evs).1 →
      e ∈ emojis →
      (∀ e', (u, e') ∈ (runEvents P uname dname emojis now evs).1 → e' = e) →
      storedEmoji P.id (runEvents P uname dname emojis now evs).2 u
        = some e) ∧
    (∀ e n, groupHas (get_poll_votes P.message_id
          (runEvents P uname dname emojis now evs).2) e n
        ↔ ∃ u, lastPaletteChoice emojis
            (runEvents P uname dname emojis now evs).1 u = some e ∧
            dname u = n) ∧
    (∀ e n, groupHas (get_poll_votes P.message_id
          (runEvents P uname dname emojis now evs).2) e n
        ↔ groupHas (get_poll_votes P.message_id
          (runEvents P uname dname emojis now evs2).2) e n) := by
  have h1 := runEvents_reconInv P uname dname emojis now evs
  have h2 := runEvents_reconInv P uname dname emojis now evs2
  have hchoice : ∀ u, lastPaletteChoice emojis
      (runEvents P uname dname emojis now evs).1 u
      = lastPaletteChoice emojis (runEvents P uname dname emojis now evs2).1 u := by
    intro u
    rw [lastPaletteChoice, lastPaletteChoice]
    exact overlayChoice_congr emojis _ _ u
      (fun e => by rw [mem_usersWith, mem_usersWith]; exact hsame u e) none
  refine ⟨h1.stored, ?_, ?_, ?_⟩
  · intro u e hmem hpal huniq
    rw [h1.stored u, lastPaletteChoice]
    exact overlayChoice_of_unique emojis _ u e ((mem_usersWith _ _ _).mpr hmem)
      (fun e' hm => huniq e' ((mem_usersWith _ _ _).mp hm)) none hpal
  · exact groupHas_get_poll_votes P dname _ _ h1
  · intro e n
    rw [groupHas_get_poll_votes P dname _ _ h1,
      groupHas_get_poll_votes P dname _ _ h2]
    constructor
    · rintro ⟨u, hu1, hu2⟩
      exact ⟨u, by rw [← hchoice u]; exact hu1, hu2⟩
    · rintro ⟨u, hu1, hu2⟩
      exact ⟨u, by rw [hchoice u]; exact hu1, hu2⟩

/-- Witness for C1 on two concrete event orders with the same final live
state: the tallies agree. -/
theorem reaction_tally_converges_witness :
    (∀ u e, ((u, e) ∈ (runEvents ⟨1, 1, "g", "c", "m1", "d", false, 0⟩
        (fun s => s) (fun s => s) ["A", "B"] 9
        [.add "u1" "A", .add "u2" "B"]).1)
      ↔ ((u, e) ∈ (runEvents ⟨1, 1, "g", "c", "m1", "d", false, 0⟩
        (fun s => s) (fun s => s) ["A", "B"] 9
        [.add "u2" "B", .add "u1" "A"]).1)) ∧
    (∀ e n, groupHas (get_poll_votes "m1"
        (runEvents ⟨1, 1, "g", "c", "m1", "d", false, 0⟩
          (fun s => s) (fun s => s) ["A", "B"] 9
          [.add "u1" "A", .add "u2" "B"]).2) e n
      ↔ groupHas (get_poll_votes "m1"
        (runEvents ⟨1, 1, "g", "c", "m1", "d", false, 0⟩
          (fun s => s) (fun s => s) ["A", "B"] 9
          [.add "u2" "B", .add "u1" "A"]).2) e n) := by
  have l1 : (runEvents ⟨1, 1, "g", "c", "m1", "d", false, 0⟩
      (fun s => s) (fun s => s) ["A", "B"] 9
      [.add "u1" "A", .add "u2" "B"]).1
      = [("u1", "A"), ("u2", "B")] := rfl
  have l2 : (runEvents ⟨1, 1, "g", "c", "m1", "d", false, 0⟩
      (fun s => s) (fun s => s) ["A", "B"] 9
      [.add "u2" "B", .add "u1" "A"]).1
      = [("u2", "B"), ("u1", "A")] := rfl
  have hsame : ∀ u e, ((u, e) ∈ (runEvents ⟨1, 1, "g", "c", "m1", "d", false, 0⟩
      (fun s => s) (fun s => s) ["A", "B"] 9
      [.add "u1" "A", .add "u2" "B"]).1)
      ↔ ((u, e) ∈ (runEvents ⟨1, 1, "g", "c", "m1", "d", false, 0⟩
      (fun s => s) (fun s => s) ["A", "B"] 9
      [.add "u2" "B", .add "u1" "A"]).1) := by
    intro u e
    rw [l1, l2]
    simp only [List.mem_cons, List.not_mem_nil, or_false]
    tauto
  exact ⟨hsame, (reaction_tally_converges ⟨1, 1, "g", "c", "m1", "d", false, 0⟩
    (fun s => s) (fun s => s) ["A", "B"] 9
    [.add "u1" "A", .add "u2" "B"] [.add "u2" "B", .add "u1" "A"]
    hsame).2.2.2⟩

/-- C7: a reaction emoji outside the poll's snapshot palette is never
stored as a vote row and never appears as a tally group, because the
re-scan only enumerates and upserts the snapshot's option emojis. -/
theorem offpalette_never_recorded (P : PollRow) (uname dname : String → String)
    (emojis : List String) (now : Nat) (evs : List REvent) :
    (∀ v ∈ (runEvents P uname dname emojis now evs).2.votes,
      v.emoji ∈ emojis) ∧
    (∀ e n, groupHas (get_poll_votes P.message_id
        (runEvents P uname dname emojis now evs).2) e n → e ∈ emojis) := by
  have h := runEvents_reconInv P uname dname emojis now evs
  refine ⟨?_, ?_⟩
  · intro v hv
    have hfv := findVote_eq_self_of_mem P _ h.rows_pid h.keys v hv
    have hst := h.stored v.user_id
    rw [storedEmoji, hfv, Option.map_some'] at hst
    rw [lastPaletteChoice] at hst
    rcases overlayChoice_mem emojis
        (runEvents P uname dname emojis now evs).1 v.user_id none v.emoji
        hst.symm with h1 | h1
    · exact h1
    · cases h1
  · intro e n hg
    rw [groupHas_get_poll_votes P dname _ _ h] at hg
    obtain ⟨u, hu, -⟩ := hg
    rw [lastPaletteChoice] at hu
    rcases overlayChoice_mem emojis
        (runEvents P uname dname emojis now evs).1 u none e hu with h1 | h1
    · exact h1
    · cases h1

/-- Witness for C7: a run containing an off-palette reaction ("Z") stores
only votes whose emoji is in the palette. -/
theorem offpalette_never_recorded_witness :
    ((⟨1, "u1", "u1", "u1", "A", 9⟩ : VoteRow)
        ∈ (runEvents ⟨1, 1, "g", "c", "m1", "d", false, 0⟩ (fun s => s)
            (fun s => s) ["A"] 9 [.add "u1" "A", .add "u1" "Z"]).2.votes) ∧
    (⟨1, "u1", "u1", "u1", "A", 9⟩ : VoteRow).emoji ∈ ["A"] := by
  refine ⟨by decide, ?_⟩
  exact (offpalette_never_recorded ⟨1, 1, "g", "c", "m1", "d", false, 0⟩
    (fun s => s) (fun s => s) ["A"] 9 [.add "u1" "A", .add "u1" "Z"]).1
    ⟨1, "u1", "u1", "u1", "A", 9⟩ (by decide)

end PollBot
